import Mathlib

/-!
Verification of the session tab-management subsystem (Pinia store
`core-tabbar`) of the vben-lite repository.

The TypeScript source is shallowly embedded below: each store action and
helper function of the tabbar module is translated into an executable Lean
definition over an explicit state record.  JavaScript objects whose keys may
be absent are modelled with `Option` fields (`none` = key absent); the
`meta.newTabTitle` field additionally distinguishes a key that is present
but holds `undefined` (`some none`) from an absent key (`none`), because the
source inspects that key with `Reflect.has`.  `decodeURIComponent` is
modelled as a partial function (percent-decoding followed by strict UTF-8
validation); the JavaScript function throws `URIError` exactly where the
model returns `none`.  The router collaborator is modelled by recording the
navigation target; the current route is passed as an explicit argument.
-/

namespace VbenTabbar

/-- Model of `Array.prototype.findIndex`, returning `none` instead of `-1`
when no element satisfies the predicate. -/
def findIndexP {α : Type} (p : α → Bool) : List α → Option Nat
  | [] => none
  | x :: xs => if p x then some 0 else (findIndexP p xs).map (· + 1)

/-- Model of the source pattern `const i = xs.findIndex(p); if (i !== -1)
xs.splice(i, 1)`: remove the first element satisfying `p`, if any. -/
def removeFirstP {α : Type} (p : α → Bool) : List α → List α
  | [] => []
  | x :: xs => if p x then xs else x :: removeFirstP p xs

theorem removeFirstP_sublist {α : Type} (p : α → Bool) (l : List α) :
    List.Sublist (removeFirstP p l) l := by
  induction l with
  | nil => simp [removeFirstP]
  | cons x xs ih =>
    by_cases h : p x = true
    · simp [removeFirstP, h]
    · simp only [removeFirstP, h]
      simp only [Bool.false_eq_true, if_false]
      exact List.Sublist.cons₂ x ih

theorem mem_removeFirstP_of_not {α : Type} {p : α → Bool} {x : α} {l : List α}
    (hx : x ∈ l) (hp : p x = false) : x ∈ removeFirstP p l := by
  induction l with
  | nil => cases hx
  | cons y ys ih =>
    by_cases h : p y = true
    · simp only [removeFirstP, h, if_true]
      rcases List.mem_cons.mp hx with rfl | hmem
      · rw [hp] at h; cases h
      · exact hmem
    · simp only [removeFirstP, h]
      simp only [Bool.false_eq_true, if_false]
      rcases List.mem_cons.mp hx with rfl | hmem
      · exact List.mem_cons_self _ _
      · exact List.mem_cons_of_mem _ (ih hmem)

theorem findIndexP_eq_none {α : Type} {p : α → Bool} {l : List α}
    (h : findIndexP p l = none) : ∀ x ∈ l, p x = false := by
  induction l with
  | nil => intro x hx; cases hx
  | cons y ys ih =>
    intro x hx
    by_cases hy : p y = true
    · simp [findIndexP, hy] at h
    · simp only [findIndexP, hy] at h
      simp only [Bool.false_eq_true, if_false, Option.map_eq_none'] at h
      rcases List.mem_cons.mp hx with rfl | hmem
      · exact Bool.eq_false_iff.mpr hy
      · exact ih h x hmem

theorem findIndexP_eq_some {α : Type} {p : α → Bool} {l : List α} {i : Nat}
    (h : findIndexP p l = some i) : ∃ x, l[i]? = some x ∧ p x = true := by
  induction l generalizing i with
  | nil => simp [findIndexP] at h
  | cons y ys ih =>
    by_cases hy : p y = true
    · simp only [findIndexP, hy, if_true, Option.some_inj] at h
      subst h
      exact ⟨y, by simp, hy⟩
    · simp only [findIndexP, hy] at h
      simp only [Bool.false_eq_true, if_false] at h
      rcases Option.map_eq_some.mp h with ⟨j, hj, rfl⟩
      rcases ih hj with ⟨x, hx, hpx⟩
      exact ⟨x, by simpa using hx, hpx⟩

theorem set_getElem?_self {α : Type} {l : List α} {i : Nat} {a : α}
    (h : l[i]? = some a) : l.set i a = l := by
  induction l generalizing i with
  | nil => simp at h
  | cons y ys ih =>
    cases i with
    | zero => simp at h; simp [List.set, h]
    | succ j => simp at h; simp [List.set, ih h]

theorem mem_set_of_ne {α : Type} {l : List α} {i : Nat} {x y z : α}
    (hx : x ∈ l) (hi : l[i]? = some y) (hne : x ≠ y) : x ∈ l.set i z := by
  induction l generalizing i with
  | nil => cases hx
  | cons a as ih =>
    cases i with
    | zero =>
      simp only [List.getElem?_cons_zero, Option.some_inj] at hi
      subst hi
      rcases List.mem_cons.mp hx with rfl | hmem
      · exact absurd rfl hne
      · exact List.mem_cons_of_mem _ hmem
    | succ j =>
      simp only [List.getElem?_cons_succ] at hi
      rcases List.mem_cons.mp hx with rfl | hmem
      · exact List.mem_cons_self _ _
      · exact List.mem_cons_of_mem _ (ih hmem hi)

/-- Numeric value of a hexadecimal digit, as accepted by the escape
sequences of `decodeURIComponent`. -/
def hexVal (c : Char) : Option Nat :=
  if '0' ≤ c ∧ c ≤ '9' then some (c.toNat - '0'.toNat)
  else if 'a' ≤ c ∧ c ≤ 'f' then some (c.toNat - 'a'.toNat + 10)
  else if 'A' ≤ c ∧ c ≤ 'F' then some (c.toNat - 'A'.toNat + 10)
  else none

/-- UTF-8 byte sequence of one character (code points below 0x110000). -/
def charUtf8Bytes (c : Char) : List Nat :=
  let n := c.toNat
  if n < 0x80 then [n]
  else if n < 0x800 then [0xC0 + n / 64, 0x80 + n % 64]
  else if n < 0x10000 then
    [0xE0 + n / 4096, 0x80 + (n / 64) % 64, 0x80 + n % 64]
  else
    [0xF0 + n / 262144, 0x80 + (n / 4096) % 64, 0x80 + (n / 64) % 64, 0x80 + n % 64]

/-- First phase of `decodeURIComponent`: replace each `%hh` escape by the
byte it denotes and every literal character by its UTF-8 bytes; `none` when
a `%` is not followed by two hexadecimal digits. -/
def percentDecodeBytes : List Char → Option (List Nat)
  | [] => some []
  | '%' :: c1 :: c2 :: rest =>
    match hexVal c1, hexVal c2 with
    | some h, some l => (percentDecodeBytes rest).map (fun bs => (16 * h + l) :: bs)
    | _, _ => none
  | '%' :: _ => none
  | c :: rest => (percentDecodeBytes rest).map (fun bs => charUtf8Bytes c ++ bs)

/-- Whether a byte is a UTF-8 continuation byte (10xxxxxx). -/
def isCont (b : Nat) : Bool := 0x80 ≤ b ∧ b < 0xC0

/-- Second phase of `decodeURIComponent`: strict UTF-8 decoding, rejecting
truncated sequences, stray continuation bytes, overlong encodings,
surrogate code points and code points above 0x10FFFF — the conditions under
which the JavaScript function throws `URIError`. -/
def utf8Decode : List Nat → Option (List Char)
  | [] => some []
  | b :: rest =>
    if b < 0x80 then (utf8Decode rest).map (fun cs => Char.ofNat b :: cs)
    else if b < 0xC2 then none
    else if b < 0xE0 then
      match rest with
      | b2 :: rest2 =>
        if isCont b2 then
          (utf8Decode rest2).map (fun cs => Char.ofNat ((b - 0xC0) * 64 + (b2 - 0x80)) :: cs)
        else none
      | _ => none
    else if b < 0xF0 then
      match rest with
      | b2 :: b3 :: rest2 =>
        if isCont b2 ∧ isCont b3 then
          let n := (b - 0xE0) * 4096 + (b2 - 0x80) * 64 + (b3 - 0x80)
          if n < 0x800 ∨ (0xD800 ≤ n ∧ n < 0xE000) then none
          else (utf8Decode rest2).map (fun cs => Char.ofNat n :: cs)
        else none
      | _ => none
    else if b < 0xF5 then
      match rest with
      | b2 :: b3 :: b4 :: rest2 =>
        if isCont b2 ∧ isCont b3 ∧ isCont b4 then
          let n := (b - 0xF0) * 262144 + (b2 - 0x80) * 4096 + (b3 - 0x80) * 64 + (b4 - 0x80)
          if n < 0x10000 ∨ 0x10FFFF < n then none
          else (utf8Decode rest2).map (fun cs => Char.ofNat n :: cs)
        else none
      | _ => none
    else none

/-- Model of the global `decodeURIComponent`: `some` its result, `none`
where the JavaScript function throws `URIError`. -/
def decodeURIComponentOpt (s : String) : Option String :=
  (percentDecodeBytes s.data).bind (fun bs => (utf8Decode bs).map (fun cs => String.mk cs))

/-- A vue-router query value: a string or `null`. -/
inductive QVal where
  | str (s : String)
  | nul
deriving DecidableEq

/-- The `query.pageKey` entry as read by `getTabKey`: a scalar value or an
array of values (duplicate query keys). -/
inductive PageKeyVal where
  | single (v : QVal)
  | multi (vs : List QVal)
deriving DecidableEq

/-- One entry of `tab.matched` as kept by `cloneTab` ({ meta, name, path });
of its `meta` only the `hideInTab` flag and (via `name`) the route name are
read by the tabbar module. -/
structure MatchedItem where
  name : Option String
  path : String
  hideInTab : Bool
deriving DecidableEq

/-- The recognized keys of `tab.meta`.  `none` models an absent key.
`newTabTitle` distinguishes a present-but-`undefined` key (`some none`)
from an absent one (`none`) because `cloneTab` always writes the key and
`addTab` tests it with `Reflect.has`. -/
structure TabMeta where
  affixTab : Option Bool := none
  affixTabOrder : Option Int := none
  title : Option String := none
  newTabTitle : Option (Option String) := none
  keepAlive : Option Bool := none
  hideInTab : Option Bool := none
  fullPathKey : Option Bool := none
  maxNumOfOpenTab : Option Int := none
deriving DecidableEq

/-- The `query` object, represented by its `pageKey` entry — the only
query entry the module inspects (`none` when the query object carries no
usable `pageKey`). -/
structure QueryObj where
  pageKey : Option PageKeyVal := none
deriving DecidableEq

/-- A `TabDefinition`: the route fields the tabbar module reads, plus the
optional `key`.  For `query` the outer `Option` is presence of the `query`
key itself (absent in objects such as `routeToTab`'s output), so the merge
spread can replace a stored query wholesale.  For `matched` the outer
`Option` is presence of the `matched` key and the inner one its value
(`some none`: key present holding `undefined`) — `cloneTab` always writes
the key, so a merge always takes the new record's value.  Navigation
targets are recorded as whole tabs, covering the `{ params, path, query }`
hand-off. -/
structure Tab where
  key : Option String := none
  name : Option String := none
  path : String := ""
  fullPath : Option String := none
  query : Option QueryObj := none
  matched : Option (Option (List MatchedItem)) := none
  meta : TabMeta := {}
deriving DecidableEq

/-- JavaScript object spread on two optional values: the second operand
wins when its key is present. -/
def optOr {α : Type} (new old : Option α) : Option α :=
  match new with
  | some x => some x
  | none => old

/-- Model of `isAffixTab`: `tab?.meta?.affixTab ?? false`. -/
def isAffixTab (t : Tab) : Bool := (t.meta.affixTab.getD false)

/-- The effective matched list of a tab (`tab?.matched ?? []`): the value
behind the key when present and defined, else the empty list. -/
def matchedList (t : Tab) : List MatchedItem := t.matched.join.getD []

/-- Model of `isTabShown`: neither the tab itself nor any matched ancestor
carries a truthy `hideInTab`. -/
def isTabShown (t : Tab) : Bool :=
  !(t.meta.hideInTab.getD false) && (matchedList t).all (fun m => !m.hideInTab)

/-- String content of a query value (`null` gives no string). -/
def qvalToStr : QVal → Option String
  | .str s => some s
  | .nul => none

/-- Model of `query = {}` destructuring followed by
`Array.isArray(query.pageKey) ? query.pageKey[0] : query.pageKey`: the
scalar value, or the first element of an array, of the `pageKey` entry of
the query object (the empty object when the `query` key is absent). -/
def rawPageKey (t : Tab) : Option String :=
  match t.query with
  | none => none
  | some q =>
    match q.pageKey with
    | none => none
    | some (.single v) => qvalToStr v
    | some (.multi vs) => vs.head?.bind qvalToStr

/-- The path-based part of `getTabKey`: `fullPathKey === false ? path :
(fullPath ?? path)`. -/
def pathBasedKey (t : Tab) : String :=
  if t.meta.fullPathKey = some false then t.path else t.fullPath.getD t.path

/-- The raw (not yet decoded) key chosen by `getTabKey`; the `pageKey`
value is used only when truthy (JavaScript `if (pageKey)`), so an empty
string falls through to the path-based key. -/
def rawTabKey (t : Tab) : String :=
  match rawPageKey t with
  | some s => if s = "" then pathBasedKey t else s
  | none => pathBasedKey t

/-- Model of `getTabKey`: percent-decode the raw key, returning the raw
key itself when decoding would throw. -/
def getTabKey (t : Tab) : String :=
  match decodeURIComponentOpt (rawTabKey t) with
  | some d => d
  | none => rawTabKey t

/-- Model of `getTabKeyFromTab`: `tab.key ?? getTabKey(tab)`. -/
def getTabKeyFromTab (t : Tab) : String := t.key.getD (getTabKey t)

/-- Model of `equalTab`: key equality. -/
def equalTab (a b : Tab) : Bool := decide (getTabKeyFromTab a = getTabKeyFromTab b)

/-- Model of `cloneTab`.  The copy is identity on the modelled fields
except that `matched: (matched ? matched.map(...) : undefined)` forces the
`matched` key to be present (its value the old effective one, `undefined`
when missing) and the spread `{ ...meta, newTabTitle: meta.newTabTitle }`
likewise forces the `newTabTitle` key to be present. -/
def cloneTab (t : Tab) : Tab :=
  { t with
    matched := some t.matched.join,
    meta := { t.meta with newTabTitle := some t.meta.newTabTitle.join } }

/-- The tabbar store state used by the verified operations: the tab list,
the keep-alive cache set (a JavaScript `Set<string>` able to hold
`undefined`, modelled as an insertion-ordered duplicate-free list of
`Option String`), and the drag revision counter bumped by `sortTabs`. -/
structure TabbarState where
  tabs : List Tab := []
  cachedTabs : List (Option String) := []
  dragEndIndex : Nat := 0
deriving DecidableEq

/-- The initial store state (empty tab list, empty cache). -/
def initialState : TabbarState := {}

/-- Model of `Set.prototype.add`: append the value unless present. -/
def setAdd (l : List (Option String)) (x : Option String) : List (Option String) :=
  if x ∈ l then l else l ++ [x]

/-- Model of `(tab.matched || []).forEach((t, i) => { if (i > 0)
cacheMap.add(t.name) })`: walk the matched list with its index, adding the
name of every entry at index greater than 0. -/
def addAncestorNames (i : Nat) (acc : List (Option String)) :
    List MatchedItem → List (Option String)
  | [] => acc
  | m :: ms => addAncestorNames (i + 1) (if 0 < i then setAdd acc m.name else acc) ms

/-- Cache names contributed by one tab in `updateCacheTabs`: nothing unless
`meta.keepAlive` is truthy; otherwise the names of all matched ancestors at
index greater than 0, then the tab's own name. -/
def cacheNamesOfTab (acc : List (Option String)) (t : Tab) : List (Option String) :=
  if t.meta.keepAlive.getD false then
    setAdd (addAncestorNames 0 acc (matchedList t)) t.name
  else acc

/-- Model of `updateCacheTabs`: recompute the cache set from the tab list. -/
def updateCacheTabs (tabs : List Tab) : List (Option String) :=
  tabs.foldl cacheNamesOfTab []

/-- Model of `_bulkCloseByKeys`: drop every tab whose key is in the list,
then recompute the cache.  The pushed values are raw `item.key` fields
(possibly `undefined`), compared against `getTabKeyFromTab`. -/
def bulkCloseByKeys (st : TabbarState) (keys : List (Option String)) : TabbarState :=
  let tabs1 := st.tabs.filter (fun item => !(decide (some (getTabKeyFromTab item) ∈ keys)))
  { st with tabs := tabs1, cachedTabs := updateCacheTabs tabs1 }

/-- Model of `_close`: a no-op on a pinned argument, otherwise remove the
first tab with an equal key. -/
def closeInternal (st : TabbarState) (tab : Tab) : TabbarState :=
  if isAffixTab tab then st
  else { st with tabs := removeFirstP (fun item => equalTab item tab) st.tabs }

/-- Effective `affixTabOrder` used by the `affixTabs` getter:
`meta?.affixTabOrder ?? 0`. -/
def affixOrder (t : Tab) : Int := t.meta.affixTabOrder.getD 0

/-- Stable insertion of a tab into a list ordered by `affixOrder`: the tab
goes in front of the first element of equal or larger order. -/
def insertByOrder (x : Tab) : List Tab → List Tab
  | [] => [x]
  | y :: ys => if affixOrder x ≤ affixOrder y then x :: y :: ys else y :: insertByOrder x ys

/-- Stable sort by `affixTabOrder`, modelling `Array.prototype.toSorted`
with the comparator `orderA - orderB` (the ECMAScript sort is stable). -/
def sortByAffixOrder : List Tab → List Tab
  | [] => []
  | x :: xs => insertByOrder x (sortByAffixOrder xs)

/-- Model of the `affixTabs` getter: the pinned tabs, stably sorted by
`affixTabOrder` ascending. -/
def affixTabsView (tabs : List Tab) : List Tab :=
  sortByAffixOrder (tabs.filter (fun t => isAffixTab t))

/-- Model of the `getTabs` getter: pinned tabs first (sorted), then the
unpinned tabs in internal order.  The source's defensive `.filter(Boolean)`
drops nothing here because the modelled list holds no null entries. -/
def getTabs (st : TabbarState) : List Tab :=
  affixTabsView st.tabs ++ st.tabs.filter (fun t => !isAffixTab t)

/-- JavaScript spread merge of two meta objects, `{ ...cur, ...new }`:
every key present in the new meta wins. -/
def mergeMeta (cur new : TabMeta) : TabMeta :=
  { affixTab := optOr new.affixTab cur.affixTab
    affixTabOrder := optOr new.affixTabOrder cur.affixTabOrder
    title := optOr new.title cur.title
    newTabTitle := optOr new.newTabTitle cur.newTabTitle
    keepAlive := optOr new.keepAlive cur.keepAlive
    hideInTab := optOr new.hideInTab cur.hideInTab
    fullPathKey := optOr new.fullPathKey cur.fullPathKey
    maxNumOfOpenTab := optOr new.maxNumOfOpenTab cur.maxNumOfOpenTab }

/-- The spread `{ ...currentTab, ...tab, meta: { ...currentTab.meta,
...tab.meta } }` of `addTab`'s merge branch. -/
def mergeTabs (cur tab : Tab) : Tab :=
  { key := optOr tab.key cur.key
    name := optOr tab.name cur.name
    path := tab.path
    fullPath := optOr tab.fullPath cur.fullPath
    query := optOr tab.query cur.query
    matched := optOr tab.matched cur.matched
    meta := mergeMeta cur.meta tab.meta }

/-- The merge branch of `addTab` with the sticky overrides: `affixTab` and
`newTabTitle` are restored to the old record's values when the old meta has
those keys (`Reflect.has`). -/
def stickyMerge (cur tab : Tab) : Tab :=
  let m0 := mergeTabs cur tab
  let m1 :=
    if cur.meta.affixTab.isSome then
      { m0 with meta := { m0.meta with affixTab := cur.meta.affixTab } }
    else m0
  if cur.meta.newTabTitle.isSome then
    { m1 with meta := { m1.meta with newTabTitle := cur.meta.newTabTitle } }
  else m1

/-- The record `addTab` works with: the clone of the route, with the key
generated from the route when the clone's key is not truthy
(`if (!tab.key) tab.key = getTabKey(routeTab)`). -/
def addedTab (routeTab : Tab) : Tab :=
  let cloned := cloneTab routeTab
  if cloned.key.getD "" = "" then { cloned with key := some (getTabKey routeTab) } else cloned

/-- Model of `addTab`.  `maxCount` is `preferences.tabbar.maxCount`, read
from configuration on each call.  Returns the new state and the record the
action returns to its caller. -/
def addTab (maxCount : Int) (st : TabbarState) (routeTab : Tab) : TabbarState × Tab :=
  let tab := addedTab routeTab
  if !isTabShown tab then (st, tab)
  else
    match findIndexP (fun item => equalTab item tab) st.tabs with
    | none =>
      let maxNum := routeTab.meta.maxNumOfOpenTab.getD (-1)
      let tabs1 :=
        if maxNum > 0 ∧
            (((st.tabs.filter (fun t => t.name = routeTab.name)).length : Int) ≥ maxNum) then
          removeFirstP (fun item => item.name = routeTab.name) st.tabs
        else if maxCount > 0 ∧ ((st.tabs.length : Int) ≥ maxCount) then
          removeFirstP (fun item => !isAffixTab item) st.tabs
        else st.tabs
      let tabs2 := tabs1 ++ [tab]
      ({ st with tabs := tabs2, cachedTabs := updateCacheTabs tabs2 }, tab)
    | some i =>
      match st.tabs[i]? with
      | none => (st, tab)
      | some currentTab =>
        let merged := stickyMerge currentTab tab
        let tabs2 := st.tabs.set i merged
        ({ st with tabs := tabs2, cachedTabs := updateCacheTabs tabs2 }, merged)

/-- Model of `closeAllTabs`: keep the pinned tabs (or, when none, the
first tab), then navigate to the first tab of the ordered view (the
`_goToDefaultTab` call) and recompute the cache.  The second component is
the navigation target handed to the router, if any. -/
def closeAllTabs (st : TabbarState) : TabbarState × Option Tab :=
  let newTabs := st.tabs.filter (fun t => isAffixTab t)
  let tabs1 := if newTabs.length > 0 then newTabs else st.tabs.take 1
  let st1 := { st with tabs := tabs1 }
  let nav := (getTabs st1).head?
  ({ st1 with cachedTabs := updateCacheTabs tabs1 }, nav)

/-- Model of `closeLeftTabs`: bulk-close the unpinned tabs strictly left of
the given tab; a no-op when the tab is absent or leftmost. -/
def closeLeftTabs (st : TabbarState) (tab : Tab) : TabbarState :=
  match findIndexP (fun item => equalTab item tab) st.tabs with
  | none => st
  | some i =>
    if i < 1 then st
    else
      let leftTabs := st.tabs.take i
      let keys := (leftTabs.filter (fun t => !isAffixTab t)).map (fun t => t.key)
      bulkCloseByKeys st keys

/-- Model of `closeRightTabs`: bulk-close the unpinned tabs strictly right
of the given tab; a no-op when the tab is absent or rightmost. -/
def closeRightTabs (st : TabbarState) (tab : Tab) : TabbarState :=
  match findIndexP (fun item => equalTab item tab) st.tabs with
  | none => st
  | some i =>
    if i < st.tabs.length - 1 then
      let rightTabs := st.tabs.drop (i + 1)
      let keys := (rightTabs.filter (fun t => !isAffixTab t)).map (fun t => t.key)
      bulkCloseByKeys st keys
    else st

/-- Model of `closeOtherTabs`: bulk-close every unpinned tab whose key
differs from the given tab's key. -/
def closeOtherTabs (st : TabbarState) (tab : Tab) : TabbarState :=
  let closeKeys := st.tabs.map getTabKeyFromTab
  let keys := closeKeys.foldl
    (fun acc key =>
      if key ≠ getTabKeyFromTab tab then
        match st.tabs.find? (fun item => decide (getTabKeyFromTab item = key)) with
        | none => acc
        | some closeTgt => if !isAffixTab closeTgt then acc ++ [closeTgt.key] else acc
      else acc) []
  bulkCloseByKeys st keys

/-- Result of `closeTab`: the final state, the navigation target handed to
`router.replace` (if any), and whether the fatal "only one tab remains
open" diagnostic was logged. -/
structure CloseTabResult where
  state : TabbarState
  nav : Option Tab
  errorLogged : Bool
deriving DecidableEq

/-- Element of a list at a JavaScript (possibly negative) index. -/
def elemAtInt (l : List Tab) (i : Int) : Option Tab :=
  if i < 0 then none else l[i.toNat]?

/-- The `findIndex` of the active tab in the ordered view, as a JavaScript
index (`-1` when absent). -/
def activeIndexInt (st : TabbarState) (currentRoute : Tab) : Int :=
  match findIndexP
      (fun item => decide (getTabKeyFromTab item = getTabKey currentRoute)) (getTabs st) with
  | some n => (n : Int)
  | none => -1

/-- Model of `closeTab` with the current route passed explicitly.  A
non-active tab is removed and the cache recomputed.  For the active tab the
position is looked up in the ordered `getTabs` view (`-1` when absent, as
in `findIndex`); the tab after it wins, else the tab before it, else the
fatal diagnostic is logged and nothing is removed. -/
def closeTab (st : TabbarState) (tab : Tab) (currentRoute : Tab) : CloseTabResult :=
  if getTabKey currentRoute ≠ getTabKeyFromTab tab then
    let st1 := closeInternal st tab
    { state := { st1 with cachedTabs := updateCacheTabs st1.tabs }
      nav := none, errorLogged := false }
  else
    match elemAtInt (getTabs st) (activeIndexInt st currentRoute + 1) with
    | some aft => { state := closeInternal st tab, nav := some aft, errorLogged := false }
    | none =>
      match elemAtInt (getTabs st) (activeIndexInt st currentRoute - 1) with
      | some bef => { state := closeInternal st tab, nav := some bef, errorLogged := false }
      | none => { state := st, nav := none, errorLogged := true }

/-- Model of `closeTabByKey`: the argument is passed to `decodeURIComponent`
with no guard, so a malformed key makes the action throw `URIError`
(modelled as `Except.error`); otherwise the tab with the decoded key is
closed via `closeTab` (a no-op when absent). -/
def closeTabByKey (st : TabbarState) (key : String) (currentRoute : Tab) :
    Except String CloseTabResult :=
  match decodeURIComponentOpt key with
  | none => .error "URIError: URI malformed"
  | some originKey =>
    match findIndexP (fun item => decide (getTabKeyFromTab item = originKey)) st.tabs with
    | none => .ok { state := st, nav := none, errorLogged := false }
    | some i =>
      match st.tabs[i]? with
      | none => .ok { state := st, nav := none, errorLogged := false }
      | some tab => .ok (closeTab st tab currentRoute)

/-- Model of `sortTabs`: move the tab at `oldIndex` to `newIndex` (splice
out, splice in) and bump the drag revision counter; a no-op when `oldIndex`
is out of range. -/
def sortTabs (st : TabbarState) (oldIndex newIndex : Nat) : TabbarState :=
  match st.tabs[oldIndex]? with
  | none => st
  | some currentTab =>
    let t1 := st.tabs.eraseIdx oldIndex
    let t2 := t1.take newIndex ++ [currentTab] ++ t1.drop newIndex
    { st with tabs := t2, dragEndIndex := st.dragEndIndex + 1 }

/-- Model of `pinTab`: set `affixTab` and restore the stored title on the
argument, replace the record, then move it to its position among the
pinned tabs via `sortTabs`.  A no-op when the tab is absent. -/
def pinTab (st : TabbarState) (tab : Tab) : TabbarState :=
  match findIndexP (fun item => equalTab item tab) st.tabs with
  | none => st
  | some index =>
    match st.tabs[index]? with
    | none => st
    | some oldTab =>
      let tab1 := { tab with meta := { tab.meta with affixTab := some true, title := oldTab.meta.title } }
      let st1 := { st with tabs := st.tabs.set index tab1 }
      let affix := st1.tabs.filter (fun t => isAffixTab t)
      match findIndexP (fun item => equalTab item tab1) affix with
      | none => st1
      | some newIndex => sortTabs st1 index newIndex

/-- Model of `unpinTab`: clear `affixTab`, restore the stored title,
replace the record, then move it to the first unpinned position (the index
right after the pinned tabs).  A no-op when the tab is absent. -/
def unpinTab (st : TabbarState) (tab : Tab) : TabbarState :=
  match findIndexP (fun item => equalTab item tab) st.tabs with
  | none => st
  | some index =>
    match st.tabs[index]? with
    | none => st
    | some oldTab =>
      let tab1 := { tab with meta := { tab.meta with affixTab := some false, title := oldTab.meta.title } }
      let st1 := { st with tabs := st.tabs.set index tab1 }
      let newIndex := (st1.tabs.filter (fun t => isAffixTab t)).length
      sortTabs st1 index newIndex

/-- Model of `toggleTabPin`. -/
def toggleTabPin (st : TabbarState) (tab : Tab) : TabbarState :=
  if tab.meta.affixTab.getD false then unpinTab st tab else pinTab st tab

/-- Model of `setTabTitle` (static titles): set the found tab's
`newTabTitle` and recompute the cache. -/
def setTabTitle (st : TabbarState) (tab : Tab) (title : String) : TabbarState :=
  match findIndexP (fun item => equalTab item tab) st.tabs with
  | none => st
  | some i =>
    match st.tabs[i]? with
    | none => st
    | some found =>
      let tabs1 := st.tabs.set i { found with meta := { found.meta with newTabTitle := some (some title) } }
      { st with tabs := tabs1, cachedTabs := updateCacheTabs tabs1 }

/-- Model of `resetTabTitle`: a no-op when the argument already has a
truthy `newTabTitle`; otherwise set the found tab's `newTabTitle` key to
`undefined` and recompute the cache. -/
def resetTabTitle (st : TabbarState) (tab : Tab) : TabbarState :=
  if (tab.meta.newTabTitle.join.getD "") ≠ "" then st
  else
    match findIndexP (fun item => equalTab item tab) st.tabs with
    | none => st
    | some i =>
      match st.tabs[i]? with
      | none => st
      | some found =>
        let tabs1 := st.tabs.set i { found with meta := { found.meta with newTabTitle := some none } }
        { st with tabs := tabs1, cachedTabs := updateCacheTabs tabs1 }

/-- Model of `routeToTab`: the projection `{ meta, name, path, key }` of a
route record. -/
def routeToTab (r : Tab) : Tab :=
  { key := some (getTabKey r), name := r.name, path := r.path, meta := r.meta }

/-- Model of `setAffixTabs`: mark each route pinned and add it. -/
def setAffixTabs (maxCount : Int) (st : TabbarState) (routes : List Tab) : TabbarState :=
  routes.foldl
    (fun s r =>
      (addTab maxCount s (routeToTab { r with meta := { r.meta with affixTab := some true } })).1) st

/-- One add call: its configuration-supplied `maxCount` and the route. -/
def runAdds (adds : List (Int × Tab)) : TabbarState :=
  adds.foldl (fun s a => (addTab a.1 s a.2).1) initialState

/-- The operations quantified over by the ordered-view claim. -/
inductive TabOp where
  | add (maxCount : Int) (routeTab : Tab)
  | pin (tab : Tab)
  | unpin (tab : Tab)
  | toggle (tab : Tab)
  | sortMove (oldIndex newIndex : Nat)
deriving DecidableEq

/-- Apply one operation of the ordered-view claim. -/
def applyOp (st : TabbarState) : TabOp → TabbarState
  | .add mc r => (addTab mc st r).1
  | .pin t => pinTab st t
  | .unpin t => unpinTab st t
  | .toggle t => toggleTabPin st t
  | .sortMove i j => sortTabs st i j

/-- Run a sequence of add/pin/unpin/sort operations from the empty store. -/
def runOps (ops : List TabOp) : TabbarState :=
  ops.foldl applyOp initialState

/-- Every tab-collection operation of the store, for the non-throwing
claim.  `refresh` is excluded: it is a timing/navigation cycle, not a
collection operation. -/
inductive TabAction where
  | add (maxCount : Int) (routeTab : Tab)
  | closeOne (tab : Tab)
  | close (tab : Tab) (currentRoute : Tab)
  | closeByKey (key : String) (currentRoute : Tab)
  | closeLeft (tab : Tab)
  | closeRight (tab : Tab)
  | closeOther (tab : Tab)
  | closeAll
  | bulkClose (keys : List (Option String))
  | pin (tab : Tab)
  | unpin (tab : Tab)
  | togglePin (tab : Tab)
  | sortMove (oldIndex newIndex : Nat)
  | setTitle (tab : Tab) (title : String)
  | resetTitle (tab : Tab)
  | setAffix (maxCount : Int) (routes : List Tab)
  | refreshCache
deriving DecidableEq

/-- Run one collection operation; `Except.error` models an escaping
JavaScript exception. -/
def runAction (st : TabbarState) : TabAction → Except String TabbarState
  | .add mc r => .ok (addTab mc st r).1
  | .closeOne t => .ok (closeInternal st t)
  | .close t cur => .ok (closeTab st t cur).state
  | .closeByKey k cur => (closeTabByKey st k cur).map (fun r => r.state)
  | .closeLeft t => .ok (closeLeftTabs st t)
  | .closeRight t => .ok (closeRightTabs st t)
  | .closeOther t => .ok (closeOtherTabs st t)
  | .closeAll => .ok (closeAllTabs st).1
  | .bulkClose keys => .ok (bulkCloseByKeys st keys)
  | .pin t => .ok (pinTab st t)
  | .unpin t => .ok (unpinTab st t)
  | .togglePin t => .ok (toggleTabPin st t)
  | .sortMove i j => .ok (sortTabs st i j)
  | .setTitle t s => .ok (setTabTitle st t s)
  | .resetTitle t => .ok (resetTabTitle st t)
  | .setAffix mc rs => .ok (setAffixTabs mc st rs)
  | .refreshCache => .ok { st with cachedTabs := updateCacheTabs st.tabs }

/-- Key resolution exactly as the claim words it: the `pageKey` query value
(first element when an array) is used whenever it is present, else the bare
path when `fullPathKey === false`, else `fullPath` falling back to `path`;
the chosen raw key is percent-decoded with fallback to the raw value. -/
def claimKeyLiteral (t : Tab) : String :=
  let raw :=
    match rawPageKey t with
    | some s => s
    | none => if t.meta.fullPathKey = some false then t.path else t.fullPath.getD t.path
  (decodeURIComponentOpt raw).getD raw

/-- Key resolution as amended: identical to the claim except that a present
`pageKey` is used only when it is truthy, i.e. a non-empty string. -/
def claimKeyAmended (t : Tab) : String :=
  let raw :=
    match rawPageKey t with
    | some s =>
      if s = "" then
        if t.meta.fullPathKey = some false then t.path else t.fullPath.getD t.path
      else s
    | none => if t.meta.fullPathKey = some false then t.path else t.fullPath.getD t.path
  (decodeURIComponentOpt raw).getD raw

/-- A route whose query carries a present but empty `pageKey`. -/
def tC2 : Tab :=
  { path := "/p", fullPath := some "/p?pageKey=",
    query := some { pageKey := some (.single (.str "")) } }

/-- Claim C2, counterexample: the claim says a present `pageKey` is used as
the key, but the source tests it for truthiness (`if (pageKey)`), so a
present empty-string `pageKey` is ignored and the full path is used. -/
theorem c2_key_resolution_counterexample :
    rawPageKey tC2 = some "" ∧ claimKeyLiteral tC2 = "" ∧
      getTabKey tC2 = "/p?pageKey=" ∧ getTabKey tC2 ≠ claimKeyLiteral tC2 := by
  decide

/-- Claim C2 (amended): `getTabKey` returns the percent-decoded `pageKey`
query value (first element when the value is an array) when it is present
and non-empty; else the bare path when `meta.fullPathKey === false`; else
`fullPath`, falling back to `path` when `fullPath` is absent; the chosen
raw key is percent-decoded and, when decoding would throw on a malformed
escape sequence, the raw undecoded value is returned.  The function is a
pure Lean function, hence deterministic for identical inputs. -/
theorem c2_key_resolution_amended (t : Tab) : getTabKey t = claimKeyAmended t := by
  unfold getTabKey claimKeyAmended rawTabKey pathBasedKey
  cases h : rawPageKey t <;> simp only [h] <;>
    cases hd : decodeURIComponentOpt _ <;> simp [hd]

theorem mem_setAdd {l : List (Option String)} {x y : Option String} :
    y ∈ setAdd l x ↔ y ∈ l ∨ y = x := by
  unfold setAdd
  by_cases h : x ∈ l
  · simp only [h, if_true]
    exact ⟨fun hy => Or.inl hy, fun hy => hy.elim id (fun he => he ▸ h)⟩
  · simp [h]

theorem nodup_setAdd {l : List (Option String)} {x : Option String} (h : l.Nodup) :
    (setAdd l x).Nodup := by
  unfold setAdd
  by_cases hx : x ∈ l
  · simpa [hx]
  · simp [hx, List.nodup_append, h]

theorem mem_addAncestorNames_pos {y : Option String} :
    ∀ (ms : List MatchedItem) (i : Nat) (acc : List (Option String)), 0 < i →
      (y ∈ addAncestorNames i acc ms ↔ y ∈ acc ∨ ∃ m ∈ ms, m.name = y) := by
  intro ms
  induction ms with
  | nil => intro i acc _; simp [addAncestorNames]
  | cons m ms ih =>
    intro i acc hi
    simp only [addAncestorNames, hi, if_true]
    rw [ih (i + 1) _ (Nat.succ_pos i)]
    simp only [mem_setAdd, List.mem_cons]
    constructor
    · rintro ((hy | hy) | ⟨m2, hm2, hn⟩)
      · exact Or.inl hy
      · exact Or.inr ⟨m, Or.inl rfl, hy.symm⟩
      · exact Or.inr ⟨m2, Or.inr hm2, hn⟩
    · rintro (hy | ⟨m2, (rfl | hm2), hn⟩)
      · exact Or.inl (Or.inl hy)
      · exact Or.inl (Or.inr hn.symm)
      · exact Or.inr ⟨m2, hm2, hn⟩

theorem mem_addAncestorNames_zero {y : Option String} (ms : List MatchedItem)
    (acc : List (Option String)) :
    y ∈ addAncestorNames 0 acc ms ↔ y ∈ acc ∨ ∃ m ∈ ms.drop 1, m.name = y := by
  cases ms with
  | nil => simp [addAncestorNames]
  | cons m ms =>
    simp only [addAncestorNames, if_neg (Nat.lt_irrefl 0), List.drop_succ_cons, List.drop_zero]
    exact mem_addAncestorNames_pos ms 1 acc Nat.one_pos

theorem nodup_addAncestorNames {acc : List (Option String)}
    (ms : List MatchedItem) (i : Nat) (h : acc.Nodup) :
    (addAncestorNames i acc ms).Nodup := by
  induction ms generalizing i acc with
  | nil => exact h
  | cons m ms ih =>
    simp only [addAncestorNames]
    apply ih
    by_cases hi : 0 < i
    · simp only [hi, if_true]; exact nodup_setAdd h
    · simpa [hi]

theorem mem_cacheNamesOfTab {y : Option String} {acc : List (Option String)} {t : Tab} :
    y ∈ cacheNamesOfTab acc t ↔ y ∈ acc ∨
      (t.meta.keepAlive.getD false = true ∧
        (y = t.name ∨ ∃ m ∈ (matchedList t).drop 1, m.name = y)) := by
  unfold cacheNamesOfTab
  by_cases hk : t.meta.keepAlive.getD false = true
  · simp only [hk, if_true, mem_setAdd, mem_addAncestorNames_zero, true_and]
    constructor
    · rintro ((hy | hy) | hy)
      · exact Or.inl hy
      · exact Or.inr (Or.inr hy)
      · exact Or.inr (Or.inl hy)
    · rintro (hy | (hy | hy))
      · exact Or.inl (Or.inl hy)
      · exact Or.inr hy
      · exact Or.inl (Or.inr hy)
  · simp [hk]

theorem nodup_cacheNamesOfTab {acc : List (Option String)} {t : Tab} (h : acc.Nodup) :
    (cacheNamesOfTab acc t).Nodup := by
  unfold cacheNamesOfTab
  by_cases hk : t.meta.keepAlive.getD false = true
  · simp only [hk, if_true]
    exact nodup_setAdd (nodup_addAncestorNames _ _ h)
  · simpa [hk]

theorem mem_foldl_cacheNames {y : Option String} :
    ∀ (tabs : List Tab) (acc : List (Option String)),
      (y ∈ tabs.foldl cacheNamesOfTab acc ↔ y ∈ acc ∨
        ∃ t ∈ tabs, t.meta.keepAlive.getD false = true ∧
          (y = t.name ∨ ∃ m ∈ (matchedList t).drop 1, m.name = y)) := by
  intro tabs
  induction tabs with
  | nil => intro acc; simp
  | cons t ts ih =>
    intro acc
    simp only [List.foldl_cons, ih, mem_cacheNamesOfTab, List.mem_cons]
    constructor
    · rintro ((hy | hy) | ⟨t2, ht2, hrest⟩)
      · exact Or.inl hy
      · exact Or.inr ⟨t, Or.inl rfl, hy⟩
      · exact Or.inr ⟨t2, Or.inr ht2, hrest⟩
    · rintro (hy | ⟨t2, (rfl | ht2), hrest⟩)
      · exact Or.inl (Or.inl hy)
      · exact Or.inl (Or.inr hrest)
      · exact Or.inr ⟨t2, ht2, hrest⟩

theorem nodup_foldl_cacheNames :
    ∀ (tabs : List Tab) (acc : List (Option String)), acc.Nodup →
      (tabs.foldl cacheNamesOfTab acc).Nodup := by
  intro tabs
  induction tabs with
  | nil => intro acc h; exact h
  | cons t ts ih => intro acc h; exact ih _ (nodup_cacheNamesOfTab h)

/-- The keep-alive tab of the claim's concrete example, with matched
ancestry `[root, layout, A]`. -/
def tabA9 : Tab :=
  { name := some "A", path := "/a",
    matched := some (some [⟨some "root", "/", false⟩, ⟨some "layout", "/l", false⟩,
      ⟨some "A", "/a", false⟩]),
    meta := { keepAlive := some true } }

/-- The non-keep-alive tab of the claim's concrete example. -/
def tabB9 : Tab := { name := some "B", path := "/b", meta := { keepAlive := some false } }

/-- Claim C9: after `updateCacheTabs`, the cache set contains exactly, for
every tab with truthy `meta.keepAlive`, the tab's own route name together
with the names of its matched ancestors at index greater than 0 (index 0
excluded); tabs without `keepAlive` contribute nothing; the result is
duplicate-free.  In particular, for A (keepAlive, matched `[root, layout,
A]`) and B (no keepAlive) the result is exactly `{layout, A}`. -/
theorem c9_cache_set_correctness :
    (∀ (tabs : List Tab) (y : Option String),
      y ∈ updateCacheTabs tabs ↔
        ∃ t ∈ tabs, t.meta.keepAlive.getD false = true ∧
          (y = t.name ∨ ∃ m ∈ (matchedList t).drop 1, m.name = y)) ∧
    (∀ tabs : List Tab, (updateCacheTabs tabs).Nodup) ∧
    updateCacheTabs [tabA9, tabB9] = [some "layout", some "A"] := by
  refine ⟨fun tabs y => ?_, fun tabs => ?_, by decide⟩
  · unfold updateCacheTabs
    rw [mem_foldl_cacheNames]
    simp
  · exact nodup_foldl_cacheNames tabs [] List.nodup_nil

theorem equalTab_eq_true_iff {a b : Tab} :
    equalTab a b = true ↔ getTabKeyFromTab a = getTabKeyFromTab b := by
  simp [equalTab]

theorem equalTab_eq_false_iff {a b : Tab} :
    equalTab a b = false ↔ getTabKeyFromTab a ≠ getTabKeyFromTab b := by
  simp [equalTab]

theorem addedTab_key_isSome (r : Tab) : (addedTab r).key.isSome := by
  unfold addedTab
  by_cases h : (cloneTab r).key.getD "" = ""
  · simp [h]
  · simp only [h, if_false]
    cases hk : (cloneTab r).key with
    | none => rw [hk] at h; simp at h
    | some s => simp

theorem stickyMerge_key (cur tab : Tab) : (stickyMerge cur tab).key = optOr tab.key cur.key := by
  unfold stickyMerge mergeTabs
  split <;> split <;> rfl

theorem getTabKeyFromTab_stickyMerge {cur tab : Tab} (h : tab.key.isSome) :
    getTabKeyFromTab (stickyMerge cur tab) = getTabKeyFromTab tab := by
  rcases Option.isSome_iff_exists.mp h with ⟨k, hk⟩
  unfold getTabKeyFromTab
  rw [stickyMerge_key, hk]
  rfl

/-- Preservation of key uniqueness by one `addTab` call. -/
theorem addTab_preserves_keysNodup (mc : Int) (st : TabbarState) (r : Tab)
    (h : (st.tabs.map getTabKeyFromTab).Nodup) :
    ((addTab mc st r).1.tabs.map getTabKeyFromTab).Nodup := by
  unfold addTab
  by_cases hs : isTabShown (addedTab r) = true
  · simp only [hs, Bool.not_true, Bool.false_eq_true, if_false]
    cases hf : findIndexP (fun item => equalTab item (addedTab r)) st.tabs with
    | none =>
      simp only
      have hall : ∀ x ∈ st.tabs, equalTab x (addedTab r) = false := findIndexP_eq_none hf
      have hsub : ∀ tabs1 : List Tab, List.Sublist tabs1 st.tabs →
          ((tabs1 ++ [addedTab r]).map getTabKeyFromTab).Nodup := by
        intro tabs1 hsb
        rw [List.map_append, List.nodup_append]
        refine ⟨(hsb.map getTabKeyFromTab).nodup h, by simp, ?_⟩
        intro a ha hb
        simp only [List.map_cons, List.map_nil, List.mem_singleton] at hb
        subst hb
        rcases List.mem_map.mp ha with ⟨x, hx, hxk⟩
        exact (equalTab_eq_false_iff.mp (hall x (hsb.subset hx))) hxk
      split
      · exact hsub _ (removeFirstP_sublist _ _)
      · split
        · exact hsub _ (removeFirstP_sublist _ _)
        · exact hsub _ (List.Sublist.refl _)
    | some i =>
      simp only
      cases hcur : st.tabs[i]? with
      | none => exact h
      | some cur =>
        simp only
        rcases findIndexP_eq_some hf with ⟨cur2, hcur2, hp⟩
        rw [hcur] at hcur2
        injection hcur2 with hcureq
        subst hcureq
        have hkeys : (st.tabs.set i (stickyMerge cur (addedTab r))).map getTabKeyFromTab
            = st.tabs.map getTabKeyFromTab := by
          rw [List.map_set]
          rw [getTabKeyFromTab_stickyMerge (addedTab_key_isSome r)]
          rw [← equalTab_eq_true_iff.mp hp]
          apply set_getElem?_self
          rw [List.getElem?_map, hcur]
          rfl
        rw [hkeys]
        exact h
  · simp only [Bool.not_eq_true] at hs
    simp [hs, h]

/-- Claim C8: for every sequence of `addTab` calls starting from the empty
collection (each with its configuration-supplied `maxCount`), the resulting
collection never contains two records with equal resolved keys (the
record's `key` field, falling back to `getTabKey` of the record). -/
theorem c8_key_uniqueness (adds : List (Int × Tab)) :
    ((runAdds adds).tabs.map getTabKeyFromTab).Nodup := by
  unfold runAdds
  have hgen : ∀ (l : List (Int × Tab)) (st : TabbarState),
      (st.tabs.map getTabKeyFromTab).Nodup →
      ((l.foldl (fun s a => (addTab a.1 s a.2).1) st).tabs.map getTabKeyFromTab).Nodup := by
    intro l
    induction l with
    | nil => intro st h; exact h
    | cons a l2 ih =>
      intro st h
      exact ih _ (addTab_preserves_keysNodup a.1 st a.2 h)
  exact hgen adds initialState (by simp [initialState])

theorem optOr_none {α : Type} (x : Option α) : optOr x none = x := by
  cases x <;> rfl

/-- The merged record as the claim describes it: every top-level field and
meta key comes from the new record when present there, else from the old
one, except that `meta.affixTab` and `meta.newTabTitle` are taken from the
old record whenever the old meta has those keys set — even when the new
meta omits them.  Note that the new record handed to the merge is always a
clone, whose `matched` key is always present (possibly holding
`undefined`), so the stored `matched` is always replaced by the new
record's value; `query` is replaced whenever the new record carries the
key. -/
def specMergedRecord (old new : Tab) : Tab :=
  { key := optOr new.key old.key
    name := optOr new.name old.name
    path := new.path
    fullPath := optOr new.fullPath old.fullPath
    query := optOr new.query old.query
    matched := optOr new.matched old.matched
    meta :=
      { affixTab :=
          match old.meta.affixTab with
          | some b => some b
          | none => new.meta.affixTab
        affixTabOrder := optOr new.meta.affixTabOrder old.meta.affixTabOrder
        title := optOr new.meta.title old.meta.title
        newTabTitle :=
          match old.meta.newTabTitle with
          | some v => some v
          | none => new.meta.newTabTitle
        keepAlive := optOr new.meta.keepAlive old.meta.keepAlive
        hideInTab := optOr new.meta.hideInTab old.meta.hideInTab
        fullPathKey := optOr new.meta.fullPathKey old.meta.fullPathKey
        maxNumOfOpenTab := optOr new.meta.maxNumOfOpenTab old.meta.maxNumOfOpenTab } }

/-- The merge-then-restore steps of the source equal the claim's one-shot
description of the merged record. -/
theorem stickyMerge_eq_spec (cur tab : Tab) : stickyMerge cur tab = specMergedRecord cur tab := by
  unfold stickyMerge specMergedRecord mergeTabs mergeMeta
  cases ha : cur.meta.affixTab <;> cases hn : cur.meta.newTabTitle <;>
    simp [ha, hn, optOr_none]

/-- Claim C3: when `addTab` finds an existing record with an equal key, the
stored record becomes the shallow merge of old-then-new (top-level fields
and meta) with `meta.affixTab` and `meta.newTabTitle` restored to the old
record's values whenever the old meta had those keys set; the record stays
at its position `i`, all other positions are untouched (`List.set`), and
the merged record is returned to the caller. -/
theorem c3_merge_stickiness (mc : Int) (st : TabbarState) (r : Tab) (i : Nat) (cur : Tab)
    (hshown : isTabShown (addedTab r) = true)
    (hf : findIndexP (fun item => equalTab item (addedTab r)) st.tabs = some i)
    (hcur : st.tabs[i]? = some cur) :
    (addTab mc st r).1.tabs = st.tabs.set i (specMergedRecord cur (addedTab r)) ∧
      (addTab mc st r).2 = specMergedRecord cur (addedTab r) := by
  unfold addTab
  simp only [hshown, Bool.not_true, Bool.false_eq_true, if_false, hf, hcur,
    stickyMerge_eq_spec]
  constructor <;> first | rfl | trivial

/-- A pinned stored tab with a custom title and a matched ancestry. -/
def curC3 : Tab :=
  { key := some "/a", name := some "home", path := "/a",
    matched := some (some [⟨some "root", "/", false⟩, ⟨some "home", "/a", false⟩]),
    meta := { affixTab := some true, newTabTitle := some (some "Custom") } }

/-- A fresh navigation to the same key whose meta omits `affixTab` and
`newTabTitle`. -/
def rC3 : Tab :=
  { name := some "home", path := "/a", fullPath := some "/a",
    meta := { title := some "Home" } }

/-- Witness for claim C3: re-adding a target whose key matches the stored
pinned tab keeps `affixTab = true` and the custom title. -/
theorem c3_merge_stickiness_witness :
    (addTab 0 { tabs := [curC3] } rC3).1.tabs =
        [curC3].set 0 (specMergedRecord curC3 (addedTab rC3)) ∧
      (addTab 0 { tabs := [curC3] } rC3).2 = specMergedRecord curC3 (addedTab rC3) :=
  c3_merge_stickiness 0 { tabs := [curC3] } rC3 0 curC3 (by decide) (by decide) (by decide)

/-- First same-name route of the eviction counterexample. -/
def xC4 : Tab := { name := some "n", path := "/x", fullPath := some "/x" }

/-- Second same-name route of the eviction counterexample. -/
def yC4 : Tab := { name := some "n", path := "/y", fullPath := some "/y" }

/-- The capped route added after the two same-name tabs were reordered. -/
def zC4 : Tab :=
  { name := some "n", path := "/z", fullPath := some "/z",
    meta := { maxNumOfOpenTab := some 2 } }

/-- Adds `x` then `y` (so `x` is the earliest-inserted tab of name `n`) and
then swaps them by a drag. -/
def opsC4 : List TabOp := [.add 0 xC4, .add 0 yC4, .sortMove 0 1]

/-- Claim C4, counterexample: after the drag reorder the per-name cap
eviction removes the tab that is first in current storage order (`/y`,
inserted second), not the earliest-inserted tab of that name (`/x`), which
survives; the claim predicted the paths `["/y", "/z"]`. -/
theorem c4_capacity_eviction_counterexample :
    (runOps opsC4).tabs.map Tab.path = ["/y", "/x"] ∧
      (addTab 0 (runOps opsC4) zC4).1.tabs.map Tab.path = ["/x", "/z"] ∧
      (["/x", "/z"] : List String) ≠ ["/y", "/z"] := by
  decide

/-- Claim C4 (amended): on adding a new (unmatched, shown) key, first, if
`meta.maxNumOfOpenTab > 0` and the count of existing tabs sharing the
target's route name has reached that cap, exactly the first tab with that
name in current storage order is removed (also when the global cap holds
simultaneously); otherwise, if `maxCount > 0` and the total count has
reached `maxCount`, exactly the first unpinned tab in current storage
order, if any, is removed; the new record is then appended at the end and
returned. -/
theorem c4_capacity_eviction_amended (mc : Int) (st : TabbarState) (r : Tab)
    (hshown : isTabShown (addedTab r) = true)
    (hf : findIndexP (fun item => equalTab item (addedTab r)) st.tabs = none) :
    ((r.meta.maxNumOfOpenTab.getD (-1) > 0 ∧
        ((st.tabs.filter (fun t => t.name = r.name)).length : Int) ≥
          r.meta.maxNumOfOpenTab.getD (-1)) →
      (addTab mc st r).1.tabs =
        removeFirstP (fun item => item.name = r.name) st.tabs ++ [addedTab r]) ∧
    (¬(r.meta.maxNumOfOpenTab.getD (-1) > 0 ∧
        ((st.tabs.filter (fun t => t.name = r.name)).length : Int) ≥
          r.meta.maxNumOfOpenTab.getD (-1)) →
      (mc > 0 ∧ (st.tabs.length : Int) ≥ mc) →
      (addTab mc st r).1.tabs =
        removeFirstP (fun item => !isAffixTab item) st.tabs ++ [addedTab r]) ∧
    (¬(r.meta.maxNumOfOpenTab.getD (-1) > 0 ∧
        ((st.tabs.filter (fun t => t.name = r.name)).length : Int) ≥
          r.meta.maxNumOfOpenTab.getD (-1)) →
      ¬(mc > 0 ∧ (st.tabs.length : Int) ≥ mc) →
      (addTab mc st r).1.tabs = st.tabs ++ [addedTab r]) ∧
    (addTab mc st r).2 = addedTab r := by
  unfold addTab
  simp only [hshown, Bool.not_true, Bool.false_eq_true, if_false, hf]
  refine ⟨fun hper => ?_, fun hnper hglob => ?_, fun hnper hnglob => ?_, trivial⟩
  · rw [if_pos hper]
  · rw [if_neg hnper, if_pos hglob]
  · rw [if_neg hnper, if_neg hnglob]

/-- Three unpinned tabs filling a `maxCount = 3` store. -/
def stC4w : TabbarState :=
  runAdds [(3, { name := some "p", path := "/p", fullPath := some "/p" }),
    (3, { name := some "q", path := "/q", fullPath := some "/q" }),
    (3, { name := some "s", path := "/s", fullPath := some "/s" })]

/-- A fourth route triggering the global cap. -/
def rC4w : Tab := { name := some "w", path := "/w", fullPath := some "/w" }

/-- Witness for claim C4 (amended): with `maxCount = 3` reached, adding a
fourth tab removes the first unpinned tab and appends the new record. -/
theorem c4_capacity_eviction_witness :
    (addTab 3 stC4w rC4w).1.tabs =
      removeFirstP (fun item => !isAffixTab item) stC4w.tabs ++ [addedTab rC4w] :=
  ((c4_capacity_eviction_amended 3 stC4w rC4w (by decide) (by decide)).2.1)
    (by decide) (by decide)

/-- With unique keys, two stored tabs with equal keys are the same tab. -/
theorem eq_of_key_eq {st : TabbarState} (hnd : (st.tabs.map getTabKeyFromTab).Nodup)
    {a b : Tab} (ha : a ∈ st.tabs) (hb : b ∈ st.tabs)
    (hk : getTabKeyFromTab a = getTabKeyFromTab b) : a = b :=
  List.inj_on_of_nodup_map hnd ha hb hk

theorem mem_closeInternal_of_affix {st : TabbarState} {t t2 : Tab}
    (hnd : (st.tabs.map getTabKeyFromTab).Nodup) (ht : isAffixTab t = true)
    (hmem : t ∈ st.tabs) (hmem2 : t2 ∈ st.tabs) : t ∈ (closeInternal st t2).tabs := by
  unfold closeInternal
  by_cases ha : isAffixTab t2 = true
  · simpa [ha]
  · simp only [ha, Bool.false_eq_true, if_false]
    apply mem_removeFirstP_of_not hmem
    rw [equalTab_eq_false_iff]
    intro hk
    have heq := eq_of_key_eq hnd hmem hmem2 hk
    subst heq
    exact ha ht

theorem mem_bulkClose_of_affix {st : TabbarState} {t : Tab} {keys : List (Option String)}
    (hnd : (st.tabs.map getTabKeyFromTab).Nodup) (ht : isAffixTab t = true)
    (hmem : t ∈ st.tabs)
    (hkeys : ∀ k ∈ keys, ∃ x ∈ st.tabs, isAffixTab x = false ∧ x.key = k) :
    t ∈ (bulkCloseByKeys st keys).tabs := by
  unfold bulkCloseByKeys
  simp only
  refine List.mem_filter.mpr ⟨hmem, ?_⟩
  simp only [Bool.not_eq_true', decide_eq_false_iff_not]
  intro hk
  rcases hkeys _ hk with ⟨x, hx, hxa, hxkey⟩
  have hkx : getTabKeyFromTab x = getTabKeyFromTab t := by
    unfold getTabKeyFromTab
    rw [hxkey]
    rfl
  have heq := eq_of_key_eq hnd hx hmem hkx
  subst heq
  rw [ht] at hxa
  cases hxa

theorem keys_of_filtered_map {l tabs : List Tab} {k : Option String}
    (hsub : ∀ x ∈ l, x ∈ tabs)
    (hk : k ∈ (l.filter (fun x => !isAffixTab x)).map (fun x => x.key)) :
    ∃ x ∈ tabs, isAffixTab x = false ∧ x.key = k := by
  rcases List.mem_map.mp hk with ⟨x, hx, rfl⟩
  rcases List.mem_filter.mp hx with ⟨hxl, hxa⟩
  exact ⟨x, hsub x hxl, by simpa using hxa, rfl⟩

theorem mem_closeLeftTabs_of_affix {st : TabbarState} {t t2 : Tab}
    (hnd : (st.tabs.map getTabKeyFromTab).Nodup) (ht : isAffixTab t = true)
    (hmem : t ∈ st.tabs) : t ∈ (closeLeftTabs st t2).tabs := by
  unfold closeLeftTabs
  cases findIndexP (fun item => equalTab item t2) st.tabs with
  | none => exact hmem
  | some i =>
    simp only
    by_cases hi : i < 1
    · rw [if_pos hi]; exact hmem
    · rw [if_neg hi]
      exact mem_bulkClose_of_affix hnd ht hmem
        (fun k hk => keys_of_filtered_map (fun x hx => List.take_subset i st.tabs hx) hk)

theorem mem_closeRightTabs_of_affix {st : TabbarState} {t t2 : Tab}
    (hnd : (st.tabs.map getTabKeyFromTab).Nodup) (ht : isAffixTab t = true)
    (hmem : t ∈ st.tabs) : t ∈ (closeRightTabs st t2).tabs := by
  unfold closeRightTabs
  cases findIndexP (fun item => equalTab item t2) st.tabs with
  | none => exact hmem
  | some i =>
    simp only
    by_cases hi : i < st.tabs.length - 1
    · rw [if_pos hi]
      exact mem_bulkClose_of_affix hnd ht hmem
        (fun k hk => keys_of_filtered_map (fun x hx => List.drop_subset (i + 1) st.tabs hx) hk)
    · rw [if_neg hi]; exact hmem

theorem mem_closeOther_keys {st : TabbarState} {tab : Tab} {k : Option String} :
    ∀ (src : List String) (acc : List (Option String)),
      k ∈ src.foldl
        (fun acc key =>
          if key ≠ getTabKeyFromTab tab then
            match st.tabs.find? (fun item => decide (getTabKeyFromTab item = key)) with
            | none => acc
            | some c => if !isAffixTab c then acc ++ [c.key] else acc
          else acc) acc →
      k ∈ acc ∨ ∃ x ∈ st.tabs, isAffixTab x = false ∧ x.key = k := by
  intro src
  induction src with
  | nil => intro acc h; exact Or.inl h
  | cons s ss ih =>
    intro acc h
    simp only [List.foldl_cons] at h
    rcases ih _ h with hacc | hex
    · by_cases hs : s ≠ getTabKeyFromTab tab
      · rw [if_pos hs] at hacc
        cases hfind : st.tabs.find? (fun item => decide (getTabKeyFromTab item = s)) with
        | none => rw [hfind] at hacc; exact Or.inl hacc
        | some c =>
          rw [hfind] at hacc
          simp only at hacc
          by_cases hc : (!isAffixTab c) = true
          · rw [if_pos hc] at hacc
            rcases List.mem_append.mp hacc with h1 | h2
            · exact Or.inl h1
            · rw [List.mem_singleton] at h2
              subst h2
              exact Or.inr ⟨c, List.mem_of_find?_eq_some hfind, by simpa using hc, rfl⟩
          · rw [if_neg hc] at hacc; exact Or.inl hacc
      · rw [if_neg hs] at hacc; exact Or.inl hacc
    · exact Or.inr hex

theorem mem_closeOtherTabs_of_affix {st : TabbarState} {t t2 : Tab}
    (hnd : (st.tabs.map getTabKeyFromTab).Nodup) (ht : isAffixTab t = true)
    (hmem : t ∈ st.tabs) : t ∈ (closeOtherTabs st t2).tabs := by
  unfold closeOtherTabs
  apply mem_bulkClose_of_affix hnd ht hmem
  intro k hk
  rcases mem_closeOther_keys _ _ hk with h | h
  · cases h
  · exact h

theorem mem_closeAllTabs_of_affix {st : TabbarState} {t : Tab}
    (ht : isAffixTab t = true) (hmem : t ∈ st.tabs) : t ∈ (closeAllTabs st).1.tabs := by
  unfold closeAllTabs
  simp only
  have htf : t ∈ st.tabs.filter (fun x => isAffixTab x) := List.mem_filter.mpr ⟨hmem, ht⟩
  have hlen : (st.tabs.filter (fun x => isAffixTab x)).length > 0 :=
    List.length_pos.mpr (List.ne_nil_of_mem htf)
  rw [if_pos hlen]
  exact htf

theorem mem_closeTab_state_of_affix {st : TabbarState} {t t2 cur : Tab}
    (hnd : (st.tabs.map getTabKeyFromTab).Nodup) (ht : isAffixTab t = true)
    (hmem : t ∈ st.tabs) (hmem2 : t2 ∈ st.tabs) :
    t ∈ (closeTab st t2 cur).state.tabs := by
  unfold closeTab
  by_cases hact : getTabKey cur ≠ getTabKeyFromTab t2
  · rw [if_pos hact]
    exact mem_closeInternal_of_affix hnd ht hmem hmem2
  · rw [if_neg hact]
    split
    · exact mem_closeInternal_of_affix hnd ht hmem hmem2
    · split
      · exact mem_closeInternal_of_affix hnd ht hmem hmem2
      · exact hmem

theorem mem_addTab_of_affix {mc : Int} {st : TabbarState} {t r : Tab}
    (ht : isAffixTab t = true) (hmem : t ∈ st.tabs)
    (hname : t.name ≠ r.name)
    (hkey : getTabKeyFromTab t ≠ getTabKeyFromTab (addedTab r)) :
    t ∈ (addTab mc st r).1.tabs := by
  unfold addTab
  by_cases hs : isTabShown (addedTab r) = true
  · simp only [hs, Bool.not_true, Bool.false_eq_true, if_false]
    cases hf : findIndexP (fun item => equalTab item (addedTab r)) st.tabs with
    | none =>
      simp only
      refine List.mem_append.mpr (Or.inl ?_)
      split
      · exact mem_removeFirstP_of_not hmem (by simpa using hname)
      · split
        · exact mem_removeFirstP_of_not hmem (by simp [ht])
        · exact hmem
    | some i =>
      simp only
      cases hcur : st.tabs[i]? with
      | none => exact hmem
      | some cur =>
        simp only
        rcases findIndexP_eq_some hf with ⟨c2, hc2, hp⟩
        rw [hcur] at hc2
        injection hc2 with he
        subst he
        refine mem_set_of_ne hmem hcur (fun heq => ?_)
        subst heq
        exact hkey (equalTab_eq_true_iff.mp hp)
  · simp only [Bool.not_eq_true] at hs
    simp [hs, hmem]

/-- Claim C1 (amended): a pinned stored tab survives `_close` and
`closeTab` (called on any stored tab, keys being unique), every bulk-close
variant, and `addTab` provided the added route does not share the pinned
tab's route name (the per-route-name cap eviction removes the first stored
tab with the target's name even when pinned) nor its key. -/
theorem c1_pin_immunity_amended (mc : Int) (st : TabbarState) (t t2 cur r : Tab)
    (hnd : (st.tabs.map getTabKeyFromTab).Nodup)
    (ht : isAffixTab t = true) (hmem : t ∈ st.tabs) (hmem2 : t2 ∈ st.tabs)
    (hname : t.name ≠ r.name)
    (hkey : getTabKeyFromTab t ≠ getTabKeyFromTab (addedTab r)) :
    t ∈ (closeInternal st t2).tabs ∧
      t ∈ (closeTab st t2 cur).state.tabs ∧
      t ∈ (closeLeftTabs st t2).tabs ∧
      t ∈ (closeRightTabs st t2).tabs ∧
      t ∈ (closeOtherTabs st t2).tabs ∧
      t ∈ (closeAllTabs st).1.tabs ∧
      t ∈ (addTab mc st r).1.tabs :=
  ⟨mem_closeInternal_of_affix hnd ht hmem hmem2,
    mem_closeTab_state_of_affix hnd ht hmem hmem2,
    mem_closeLeftTabs_of_affix hnd ht hmem,
    mem_closeRightTabs_of_affix hnd ht hmem,
    mem_closeOtherTabs_of_affix hnd ht hmem,
    mem_closeAllTabs_of_affix ht hmem,
    mem_addTab_of_affix ht hmem hname hkey⟩

/-- The pinned tab of the pin-immunity counterexample. -/
def pinnedC1 : Tab :=
  { name := some "n", path := "/a", fullPath := some "/a", meta := { affixTab := some true } }

/-- A same-name route carrying a per-name cap of 1. -/
def rC1 : Tab :=
  { name := some "n", path := "/b", fullPath := some "/b",
    meta := { maxNumOfOpenTab := some 1 } }

/-- Claim C1, counterexample: a reachable state holds one pinned tab;
adding a same-name route whose `meta.maxNumOfOpenTab` cap is reached
evicts the pinned tab, so capacity eviction during `addTab` does not leave
every pinned tab present. -/
theorem c1_pin_immunity_counterexample :
    ((addTab 0 initialState pinnedC1).1.tabs.filter (fun x => isAffixTab x)).length = 1 ∧
      ((addTab 0 (addTab 0 initialState pinnedC1).1 rC1).1.tabs.filter
        (fun x => isAffixTab x)) = [] := by
  decide

/-- The pinned tab stored in `stC1w`. -/
def tC1w : Tab :=
  { key := some "/p", name := some "p", path := "/p", meta := { affixTab := some true } }

/-- The unpinned tab stored in `stC1w`. -/
def t2C1w : Tab := { key := some "/q", name := some "q", path := "/q" }

/-- Store for the pin-immunity witness: a pinned tab and an unpinned one. -/
def stC1w : TabbarState := { tabs := [tC1w, t2C1w] }

/-- A route unrelated to the pinned tab by name and key. -/
def rC1w : Tab := { name := some "w", path := "/w", fullPath := some "/w" }

/-- Witness for claim C1 (amended): the pinned `/p` tab survives every
close variant and an `addTab` of an unrelated route. -/
theorem c1_pin_immunity_witness :
    tC1w ∈ (closeInternal stC1w t2C1w).tabs ∧
      tC1w ∈ (closeTab stC1w t2C1w { path := "/q" }).state.tabs ∧
      tC1w ∈ (closeLeftTabs stC1w t2C1w).tabs ∧
      tC1w ∈ (closeRightTabs stC1w t2C1w).tabs ∧
      tC1w ∈ (closeOtherTabs stC1w t2C1w).tabs ∧
      tC1w ∈ (closeAllTabs stC1w).1.tabs ∧
      tC1w ∈ (addTab 2 stC1w rC1w).1.tabs :=
  c1_pin_immunity_amended 2 stC1w tC1w t2C1w { path := "/q" } rC1w
    (by decide) (by decide) (by decide) (by decide) (by decide) (by decide)

theorem elemAtInt_ofNat_add_one (l : List Tab) (i : Nat) :
    elemAtInt l ((i : Int) + 1) = l[i + 1]? := by
  unfold elemAtInt
  rw [if_neg (by omega)]
  have htn : ((i : Int) + 1).toNat = i + 1 := by omega
  rw [htn]

theorem elemAtInt_ofNat_sub_one (l : List Tab) (i : Nat) (h : 1 ≤ i) :
    elemAtInt l ((i : Int) - 1) = l[i - 1]? := by
  unfold elemAtInt
  rw [if_neg (by omega)]
  have htn : ((i : Int) - 1).toNat = i - 1 := by omega
  rw [htn]

theorem elemAtInt_zero_sub_one (l : List Tab) : elemAtInt l ((0 : Int) - 1) = none := by
  unfold elemAtInt
  rw [if_pos (by omega)]

theorem closeInternal_not_affix {st : TabbarState} {tab : Tab} (h : isAffixTab tab = false) :
    closeInternal st tab =
      { st with tabs := removeFirstP (fun item => equalTab item tab) st.tabs } := by
  unfold closeInternal
  rw [h]
  simp

/-- Claim C5 (amended): when `closeTab` is called on a non-pinned tab whose
key equals the current route's key, the position is looked up in the
ordered `getTabs` view; when a tab exists right after it there, the tab is
removed and navigation goes to the after-tab; else, when a tab exists
right before it, the tab is removed and navigation goes to the before-tab;
when neither exists, the diagnostic is logged and the state is unchanged.
For a pinned active tab the removal does not happen (the `_close` guard),
though the same navigation still occurs. -/
theorem c5_close_and_navigate_amended (st : TabbarState) (tab cur : Tab) (i : Nat)
    (haff : isAffixTab tab = false)
    (hact : getTabKey cur = getTabKeyFromTab tab)
    (hidx : findIndexP (fun item => decide (getTabKeyFromTab item = getTabKey cur))
      (getTabs st) = some i) :
    (∀ aft, (getTabs st)[i + 1]? = some aft →
      closeTab st tab cur =
        { state := { st with tabs := removeFirstP (fun item => equalTab item tab) st.tabs }
          nav := some aft, errorLogged := false }) ∧
    ((getTabs st)[i + 1]? = none → 1 ≤ i → ∀ bef, (getTabs st)[i - 1]? = some bef →
      closeTab st tab cur =
        { state := { st with tabs := removeFirstP (fun item => equalTab item tab) st.tabs }
          nav := some bef, errorLogged := false }) ∧
    ((getTabs st)[i + 1]? = none → i = 0 →
      closeTab st tab cur = { state := st, nav := none, errorLogged := true }) := by
  have hai : activeIndexInt st cur = (i : Int) := by
    unfold activeIndexInt
    rw [hidx]
  have hguard : ¬(getTabKey cur ≠ getTabKeyFromTab tab) := fun h => h hact
  refine ⟨fun aft haft => ?_, fun hnone h1 bef hbef => ?_, fun hnone h0 => ?_⟩
  · unfold closeTab
    rw [if_neg hguard, hai, elemAtInt_ofNat_add_one, haft, closeInternal_not_affix haff]
  · unfold closeTab
    rw [if_neg hguard, hai, elemAtInt_ofNat_add_one, hnone,
      elemAtInt_ofNat_sub_one _ _ h1, hbef, closeInternal_not_affix haff]
  · subst h0
    unfold closeTab
    rw [if_neg hguard, hai, elemAtInt_ofNat_add_one, hnone]
    simp only [Nat.cast_zero, elemAtInt_zero_sub_one]

/-- The pinned active tab of the close-and-navigate counterexamples. -/
def pC5 : Tab :=
  { key := some "/p", name := some "p", path := "/p", meta := { affixTab := some true } }

/-- The neighbouring tab of the close-and-navigate counterexamples. -/
def bC5 : Tab := { key := some "/b", name := some "b", path := "/b" }

/-- Store holding the pinned tab and its neighbour. -/
def stC5 : TabbarState := { tabs := [pC5, bC5] }

/-- A current route whose key equals the pinned tab's key. -/
def curC5 : Tab := { path := "/p", fullPath := some "/p" }

/-- Claim C5, counterexample: closing the active *pinned* tab does not
remove it (`_close` is a no-op on pinned tabs), yet the claim asserts the
tab is removed before navigating to the after-tab; the tab stays and
navigation to the after-tab still happens. -/
theorem c5_close_and_navigate_counterexample :
    (closeTab stC5 pC5 curC5).nav = some bC5 ∧
      (closeTab stC5 pC5 curC5).state.tabs = [pC5, bC5] ∧
      pC5 ∈ (closeTab stC5 pC5 curC5).state.tabs := by
  decide

/-- Tabs `[A, B, C]` of the close-and-navigate witness, B active. -/
def aC5w : Tab := { key := some "/wa", name := some "wa", path := "/wa" }

/-- The active middle tab of the close-and-navigate witness. -/
def bC5w : Tab := { key := some "/wb", name := some "wb", path := "/wb" }

/-- The right neighbour of the close-and-navigate witness. -/
def cC5w : Tab := { key := some "/wc", name := some "wc", path := "/wc" }

/-- Store `[A, B, C]` for the close-and-navigate witness. -/
def stC5w : TabbarState := { tabs := [aC5w, bC5w, cC5w] }

/-- Current route matching the middle tab. -/
def curC5w : Tab := { path := "/wb", fullPath := some "/wb" }

/-- Witness for claim C5 (amended): closing the active middle tab of
`[A, B, C]` removes it and navigates to C. -/
theorem c5_close_and_navigate_witness :
    closeTab stC5w bC5w curC5w =
      { state := { stC5w with
          tabs := removeFirstP (fun item => equalTab item bC5w) stC5w.tabs }
        nav := some cC5w, errorLogged := false } :=
  (c5_close_and_navigate_amended stC5w bC5w curC5w 1 (by decide) (by decide)
    (by decide)).1 cC5w (by decide)

/-- Claim C6 (amended): `closeTab` on a pinned tab never changes the tab
list (the `_close` affix guard) or the drag counter, whether or not the
tab is active.  When the tab is not the active route's tab, there is no
navigation and no diagnostic, and the cached-name set is recomputed from
the unchanged tab list — so it changes exactly when it was stale, a
reachable situation because the active-close success path skips the
recompute.  When the tab *is* active, the cached-name set is untouched
(the pinned tab is retained), but navigation to an adjacent ordered-view
tab does occur when one exists. -/
theorem c6_pinned_close_noop_amended (st : TabbarState) (tab cur : Tab)
    (haff : isAffixTab tab = true) :
    (closeTab st tab cur).state.tabs = st.tabs ∧
      (closeTab st tab cur).state.dragEndIndex = st.dragEndIndex ∧
      (getTabKey cur ≠ getTabKeyFromTab tab →
        (closeTab st tab cur).state.cachedTabs = updateCacheTabs st.tabs ∧
          (closeTab st tab cur).nav = none ∧
          (closeTab st tab cur).errorLogged = false) ∧
      (getTabKey cur = getTabKeyFromTab tab →
        (closeTab st tab cur).state.cachedTabs = st.cachedTabs) := by
  have hclose : closeInternal st tab = st := by
    unfold closeInternal
    rw [haff]
    simp
  unfold closeTab
  by_cases hguard : getTabKey cur ≠ getTabKeyFromTab tab
  · rw [if_pos hguard]
    simp only [hclose]
    exact ⟨trivial, trivial, fun _ => ⟨trivial, trivial, trivial⟩, fun h => absurd h hguard⟩
  · rw [if_neg hguard]
    refine ⟨?_, ?_, fun h => absurd h hguard, fun _ => ?_⟩ <;>
      cases elemAtInt (getTabs st) (activeIndexInt st cur + 1) with
      | some aft => rw [hclose]
      | none =>
        cases elemAtInt (getTabs st) (activeIndexInt st cur - 1) with
        | some bef => rw [hclose]
        | none => rfl

/-- Claim C6, counterexample: closing the active pinned tab changes the
external navigation state — the router is told to replace the route with
the neighbouring tab — although the claim says everything, including
navigation, is left unchanged whether or not the tab is active. -/
theorem c6_pinned_close_noop_counterexample :
    isAffixTab pC5 = true ∧ (closeTab stC5 pC5 curC5).nav = some bC5 ∧
      (closeTab stC5 pC5 curC5).nav ≠ none := by
  decide

/-- Pinned tab of the C6 witness store. -/
def pC6w : Tab :=
  { key := some "/p6", name := some "p6", path := "/p6", meta := { affixTab := some true } }

/-- The other tab of the C6 witness store. -/
def qC6w : Tab := { key := some "/q6", name := some "q6", path := "/q6" }

/-- C6 witness store. -/
def stC6w : TabbarState := { tabs := [pC6w, qC6w] }

/-- Witness for claim C6 (amended): closing the pinned tab while another
route is active keeps the tab list, recomputes the cache from it, and
triggers no navigation and no diagnostic. -/
theorem c6_pinned_close_noop_witness :
    (closeTab stC6w pC6w { path := "/q6" }).state.tabs = stC6w.tabs ∧
      (closeTab stC6w pC6w { path := "/q6" }).state.dragEndIndex = stC6w.dragEndIndex ∧
      (getTabKey { path := "/q6" } ≠ getTabKeyFromTab pC6w →
        (closeTab stC6w pC6w { path := "/q6" }).state.cachedTabs =
            updateCacheTabs stC6w.tabs ∧
          (closeTab stC6w pC6w { path := "/q6" }).nav = none ∧
          (closeTab stC6w pC6w { path := "/q6" }).errorLogged = false) ∧
      (getTabKey { path := "/q6" } = getTabKeyFromTab pC6w →
        (closeTab stC6w pC6w { path := "/q6" }).state.cachedTabs = stC6w.cachedTabs) :=
  c6_pinned_close_noop_amended stC6w pC6w { path := "/q6" } (by decide)

theorem insertByOrder_perm (x : Tab) : ∀ l : List Tab, (insertByOrder x l).Perm (x :: l) := by
  intro l
  induction l with
  | nil => simp [insertByOrder]
  | cons y ys ih =>
    unfold insertByOrder
    by_cases hle : affixOrder x ≤ affixOrder y
    · rw [if_pos hle]
    · rw [if_neg hle]
      exact List.Perm.trans (ih.cons y) (List.Perm.swap x y ys)

theorem mem_insertByOrder {x b : Tab} {l : List Tab} :
    b ∈ insertByOrder x l ↔ b = x ∨ b ∈ l := by
  rw [(insertByOrder_perm x l).mem_iff]
  simp

theorem sortByAffixOrder_perm : ∀ l : List Tab, (sortByAffixOrder l).Perm l := by
  intro l
  induction l with
  | nil => simp [sortByAffixOrder]
  | cons x xs ih =>
    unfold sortByAffixOrder
    exact List.Perm.trans (insertByOrder_perm x _) (ih.cons x)

theorem insertByOrder_pairwise {x : Tab} {l : List Tab}
    (h : l.Pairwise (fun a b => affixOrder a ≤ affixOrder b)) :
    (insertByOrder x l).Pairwise (fun a b => affixOrder a ≤ affixOrder b) := by
  induction l with
  | nil => simp [insertByOrder]
  | cons y ys ih =>
    rcases List.pairwise_cons.mp h with ⟨hy, hys⟩
    unfold insertByOrder
    by_cases hle : affixOrder x ≤ affixOrder y
    · rw [if_pos hle]
      refine List.pairwise_cons.mpr ⟨?_, h⟩
      intro b hb
      rcases List.mem_cons.mp hb with rfl | hb2
      · exact hle
      · exact le_trans hle (hy b hb2)
    · rw [if_neg hle]
      refine List.pairwise_cons.mpr ⟨?_, ih hys⟩
      intro b hb
      rcases mem_insertByOrder.mp hb with rfl | hb2
      · exact le_of_not_le hle
      · exact hy b hb2

theorem sortByAffixOrder_pairwise (l : List Tab) :
    (sortByAffixOrder l).Pairwise (fun a b => affixOrder a ≤ affixOrder b) := by
  induction l with
  | nil => simp [sortByAffixOrder]
  | cons x xs ih => exact insertByOrder_pairwise ih

theorem filter_insertByOrder (x : Tab) (o : Int) : ∀ l : List Tab,
    (insertByOrder x l).filter (fun t => decide (affixOrder t = o)) =
      if affixOrder x = o then x :: l.filter (fun t => decide (affixOrder t = o))
      else l.filter (fun t => decide (affixOrder t = o)) := by
  intro l
  induction l with
  | nil =>
    by_cases ho : affixOrder x = o <;> simp [insertByOrder, List.filter_cons, ho]
  | cons y ys ih =>
    unfold insertByOrder
    by_cases hle : affixOrder x ≤ affixOrder y
    · rw [if_pos hle]
      by_cases ho : affixOrder x = o <;> simp [List.filter_cons, ho]
    · rw [if_neg hle]
      by_cases hyo : affixOrder y = o
      · have hxo : affixOrder x ≠ o := by
          intro hx
          exact hle (le_of_eq (hx.trans hyo.symm))
        simp [List.filter_cons, hyo, hxo, ih]
      · by_cases ho : affixOrder x = o <;> simp [List.filter_cons, hyo, ho, ih]

/-- Stability of the sort: tabs of any fixed `affixTabOrder` keep their
relative (current internal) order. -/
theorem filter_sortByAffixOrder (o : Int) : ∀ l : List Tab,
    (sortByAffixOrder l).filter (fun t => decide (affixOrder t = o)) =
      l.filter (fun t => decide (affixOrder t = o)) := by
  intro l
  induction l with
  | nil => rfl
  | cons x xs ih =>
    unfold sortByAffixOrder
    rw [filter_insertByOrder]
    by_cases ho : affixOrder x = o <;> simp [List.filter_cons, ho, ih]

theorem mem_affixTabsView_affix {st : TabbarState} {x : Tab}
    (hx : x ∈ affixTabsView st.tabs) : isAffixTab x = true := by
  unfold affixTabsView at hx
  have := (sortByAffixOrder_perm _).mem_iff.mp hx
  exact (List.mem_filter.mp this).2

theorem getTabs_filter_affix (st : TabbarState) :
    (getTabs st).filter (fun t => isAffixTab t) = affixTabsView st.tabs := by
  unfold getTabs
  rw [List.filter_append]
  have h1 : (affixTabsView st.tabs).filter (fun t => isAffixTab t) = affixTabsView st.tabs :=
    List.filter_eq_self.mpr (fun a ha => mem_affixTabsView_affix ha)
  have h2 : (st.tabs.filter (fun t => !isAffixTab t)).filter (fun t => isAffixTab t) = [] := by
    rw [List.filter_eq_nil_iff]
    intro a ha
    have := (List.mem_filter.mp ha).2
    simp only [Bool.not_eq_true'] at this
    simp [this]
  rw [h1, h2, List.append_nil]

theorem getTabs_filter_not_affix (st : TabbarState) :
    (getTabs st).filter (fun t => !isAffixTab t) = st.tabs.filter (fun t => !isAffixTab t) := by
  unfold getTabs
  rw [List.filter_append]
  have h1 : (affixTabsView st.tabs).filter (fun t => !isAffixTab t) = [] := by
    rw [List.filter_eq_nil_iff]
    intro a ha
    simp [mem_affixTabsView_affix ha]
  have h2 : (st.tabs.filter (fun t => !isAffixTab t)).filter (fun t => !isAffixTab t) =
      st.tabs.filter (fun t => !isAffixTab t) :=
    List.filter_eq_self.mpr (fun a ha => (List.mem_filter.mp ha).2)
  rw [h1, h2, List.nil_append]

/-- Claim C7 (amended): after any sequence of add/pin/unpin/sort
operations, the ordered view `getTabs` consists of exactly the pinned tabs
followed by exactly the unpinned tabs; its pinned prefix is sorted by
`affixTabOrder` ascending, is a permutation of the stored pinned tabs, and
breaks ties by current internal storage order (which equals insertion
order only while no reordering has occurred); its unpinned suffix is the
stored unpinned tabs in current internal order; nothing else appears (the
defensive falsy filter drops nothing). -/
theorem c7_ordered_view_amended (ops : List TabOp) :
    getTabs (runOps ops) =
        (getTabs (runOps ops)).filter (fun t => isAffixTab t) ++
          (getTabs (runOps ops)).filter (fun t => !isAffixTab t) ∧
      ((getTabs (runOps ops)).filter (fun t => isAffixTab t)).Pairwise
        (fun a b => affixOrder a ≤ affixOrder b) ∧
      (∀ o : Int,
        (((getTabs (runOps ops)).filter (fun t => isAffixTab t)).filter
            (fun t => decide (affixOrder t = o))) =
          (((runOps ops).tabs.filter (fun t => isAffixTab t)).filter
            (fun t => decide (affixOrder t = o)))) ∧
      ((getTabs (runOps ops)).filter (fun t => isAffixTab t)).Perm
        ((runOps ops).tabs.filter (fun t => isAffixTab t)) ∧
      (getTabs (runOps ops)).filter (fun t => !isAffixTab t) =
        (runOps ops).tabs.filter (fun t => !isAffixTab t) := by
  refine ⟨?_, ?_, fun o => ?_, ?_, getTabs_filter_not_affix _⟩
  · rw [getTabs_filter_affix, getTabs_filter_not_affix]
    unfold getTabs
    rfl
  · rw [getTabs_filter_affix]
    exact sortByAffixOrder_pairwise _
  · rw [getTabs_filter_affix]
    exact filter_sortByAffixOrder o _
  · rw [getTabs_filter_affix]
    exact sortByAffixOrder_perm _

/-- First pinned route of the tie-breaking counterexample. -/
def raC7 : Tab :=
  { name := some "a7", path := "/a7", fullPath := some "/a7",
    meta := { affixTab := some true } }

/-- Second pinned route of the tie-breaking counterexample, equal
`affixTabOrder`. -/
def rbC7 : Tab :=
  { name := some "b7", path := "/b7", fullPath := some "/b7",
    meta := { affixTab := some true } }

/-- Adds pinned `/a7` then pinned `/b7` (equal order) and swaps them. -/
def opsC7 : List TabOp := [.add 0 raC7, .add 0 rbC7, .sortMove 0 1]

/-- Claim C7, counterexample: the two pinned tabs share `affixTabOrder`;
they were inserted `/a7` first, but after a drag reorder the view lists
`/b7` first — ties follow current internal storage order, not insertion
order as the claim states. -/
theorem c7_ordered_view_counterexample :
    (getTabs (runOps opsC7)).map Tab.path = ["/b7", "/a7"] ∧
      (["/b7", "/a7"] : List String) ≠ ["/a7", "/b7"] := by
  decide

/-- Claim C10 (amended): every tab-collection operation other than
`closeTabByKey` terminates without throwing on any input (the modelled
actions never yield an error); `closeTabByKey`, whose unguarded
`decodeURIComponent(key)` call is its only throw site, succeeds exactly
when its key argument percent-decodes, and throws `URIError` on a
malformed key.  Errors of the navigation collaborator are outside the
model (navigation is recorded, not performed). -/
theorem c10_non_throwing_amended :
    (∀ (st : TabbarState) (a : TabAction),
      (∀ (k : String) (cur : Tab), a ≠ .closeByKey k cur) → (runAction st a).isOk = true) ∧
      (∀ (st : TabbarState) (k : String) (cur : Tab),
        (runAction st (.closeByKey k cur)).isOk = true ↔
          (decodeURIComponentOpt k).isSome = true) := by
  constructor
  · intro st a h
    cases a with
    | closeByKey k cur => exact absurd rfl (h k cur)
    | add mc r => rfl
    | closeOne t => rfl
    | close t cur => rfl
    | closeLeft t => rfl
    | closeRight t => rfl
    | closeOther t => rfl
    | closeAll => rfl
    | bulkClose keys => rfl
    | pin t => rfl
    | unpin t => rfl
    | togglePin t => rfl
    | sortMove i j => rfl
    | setTitle t s => rfl
    | resetTitle t => rfl
    | setAffix mc rs => rfl
    | refreshCache => rfl
  · intro st k cur
    unfold runAction closeTabByKey
    cases hd : decodeURIComponentOpt k with
    | none => simp [hd, Except.isOk, Except.toBool, Except.map]
    | some dk =>
      simp only [hd, Option.isSome_some, iff_true]
      cases hf : findIndexP (fun item => decide (getTabKeyFromTab item = dk)) st.tabs with
      | none => simp [hf, Except.isOk, Except.toBool, Except.map]
      | some i =>
        cases ht : st.tabs[i]? with
        | none => simp [hf, ht, Except.isOk, Except.toBool, Except.map]
        | some tab => simp [hf, ht, Except.isOk, Except.toBool, Except.map]

/-- Claim C10, counterexample: `closeTabByKey` applied to the arbitrary
string key `"%"` throws `URIError` (the unguarded `decodeURIComponent`
call at the top of the action), so not every tab-collection operation is
non-throwing on arbitrary input. -/
theorem c10_non_throwing_counterexample :
    runAction initialState (.closeByKey "%" { path := "/" }) =
      .error "URIError: URI malformed" := rfl

/-- Witness for claim C10 (amended): a non-`closeTabByKey` action never
errors, and `closeTabByKey` succeeds on a well-formed key. -/
theorem c10_non_throwing_witness :
    (runAction initialState .closeAll).isOk = true ∧
      ((runAction initialState (.closeByKey "/a" { path := "/" })).isOk = true ↔
        (decodeURIComponentOpt "/a").isSome = true) :=
  ⟨c10_non_throwing_amended.1 initialState .closeAll
      (fun _ _ h => TabAction.noConfusion h),
    c10_non_throwing_amended.2 initialState "/a" { path := "/" }⟩

end VbenTabbar
